import Mathlib

/-!
Verification of the core utilities of the `saged` repository
(`saged/utils.py`): the class-balance corrector, the label-map loader,
the metadata resolver (tissue extraction), the cohort selector, the
study filter and the deterministic shuffle.

Python numbers are embedded as exact rationals (ℚ); Python `dict`s are
embedded as association lists with first-match lookup (Python dict keys
are unique, so first-match lookup coincides with dict lookup); code that
can raise an exception is embedded with an `Option` result, where `none`
marks the raised exception.
-/

namespace Saged

/-! ## Class-balance corrector (`determine_subset_fraction`) -/

/-- `train_positive / (train_negative + train_positive)`, the share of
positive samples in the training pool. -/
def train_disease_fraction (train_positive train_negative : ℕ) : ℚ :=
  (train_positive : ℚ) / ((train_negative : ℚ) + (train_positive : ℚ))

/-- `val_positive / (val_positive + val_negative)`, the share of positive
samples in the validation pool. -/
def val_disease_fraction (val_positive val_negative : ℕ) : ℚ :=
  (val_positive : ℚ) / ((val_positive : ℚ) + (val_negative : ℚ))

/-- Embedding of `determine_subset_fraction`.  The Python function assigns
`subset_fraction` only inside the two comparison branches; when the two
fractions are equal neither branch runs and the final
`return subset_fraction` raises `UnboundLocalError`, embedded here as
`none`. -/
def determine_subset_fraction (train_positive train_negative val_positive val_negative : ℕ) :
    Option ℚ :=
  let tdf : ℚ := train_disease_fraction train_positive train_negative
  let vdf : ℚ := val_disease_fraction val_positive val_negative
  if tdf > vdf then
    let target : ℚ := (vdf * (train_negative : ℚ)) / (1 - vdf)
    some (target / (train_positive : ℚ))
  else if tdf < vdf then
    let target : ℚ := ((train_positive : ℚ) - vdf * (train_positive : ℚ)) / vdf
    some (target / (train_negative : ℚ))
  else
    none

/-! Basic facts about the two pool fractions. -/

theorem train_disease_fraction_nonneg (tp tn : ℕ) : 0 ≤ train_disease_fraction tp tn := by
  unfold train_disease_fraction
  positivity

theorem val_disease_fraction_nonneg (vp vn : ℕ) : 0 ≤ val_disease_fraction vp vn := by
  unfold val_disease_fraction
  positivity

theorem train_disease_fraction_le_one (tp tn : ℕ) : train_disease_fraction tp tn ≤ 1 := by
  unfold train_disease_fraction
  rcases Nat.eq_zero_or_pos (tn + tp) with h | h
  · obtain ⟨h1, h2⟩ := Nat.add_eq_zero.mp h
    simp [h1, h2]
  · have hpos : (0 : ℚ) < (tn : ℚ) + (tp : ℚ) := by
      have h2 : (0 : ℚ) < ((tn + tp : ℕ) : ℚ) := by exact_mod_cast h
      push_cast at h2
      linarith
    rw [div_le_one hpos]
    have : (0 : ℚ) ≤ (tn : ℚ) := Nat.cast_nonneg tn
    linarith

theorem val_disease_fraction_le_one (vp vn : ℕ) : val_disease_fraction vp vn ≤ 1 := by
  unfold val_disease_fraction
  rcases Nat.eq_zero_or_pos (vp + vn) with h | h
  · obtain ⟨h1, h2⟩ := Nat.add_eq_zero.mp h
    simp [h1, h2]
  · have hpos : (0 : ℚ) < (vp : ℚ) + (vn : ℚ) := by
      have h2 : (0 : ℚ) < ((vp + vn : ℕ) : ℚ) := by exact_mod_cast h
      push_cast at h2
      linarith
    rw [div_le_one hpos]
    have : (0 : ℚ) ≤ (vn : ℚ) := Nat.cast_nonneg vn
    linarith

theorem train_positive_pos_of_fraction_pos {tp tn : ℕ}
    (h : 0 < train_disease_fraction tp tn) : 0 < tp := by
  by_contra hc
  have htp : tp = 0 := Nat.eq_zero_of_not_pos hc
  rw [train_disease_fraction, htp] at h
  simp at h

theorem train_negative_pos_of_fraction_lt_one {tp tn : ℕ}
    (hT : 0 < tp + tn) (h : train_disease_fraction tp tn < 1) : 0 < tn := by
  by_contra hc
  have htn : tn = 0 := Nat.eq_zero_of_not_pos hc
  subst htn
  have htp : 0 < tp := by omega
  rw [train_disease_fraction] at h
  have hpos : (0 : ℚ) < (tp : ℚ) := by exact_mod_cast htp
  rw [Nat.cast_zero, zero_add, div_self (ne_of_gt hpos)] at h
  exact lt_irrefl 1 h

/-- C1: in the `r_train > r_val` branch the function returns
`(r_val * train_neg / (1 - r_val)) / train_pos`, and in the
`r_train < r_val` branch it returns
`(train_pos * (1 - r_val) / r_val) / train_neg`: the keep-fraction
(target/original) of the designated class. -/
theorem determine_subset_fraction_formula (tp tn vp vn : ℕ)
    (hT : 0 < tp + tn) (hV : 0 < vp + vn) :
    (train_disease_fraction tp tn > val_disease_fraction vp vn →
      determine_subset_fraction tp tn vp vn =
        some ((val_disease_fraction vp vn * (tn : ℚ) / (1 - val_disease_fraction vp vn)) /
          (tp : ℚ))) ∧
    (train_disease_fraction tp tn < val_disease_fraction vp vn →
      determine_subset_fraction tp tn vp vn =
        some (((tp : ℚ) * (1 - val_disease_fraction vp vn) / val_disease_fraction vp vn) /
          (tn : ℚ))) := by
  constructor
  · intro h
    rw [determine_subset_fraction, if_pos h]
  · intro h
    have hnot : ¬ train_disease_fraction tp tn > val_disease_fraction vp vn := not_lt.mpr h.le
    rw [determine_subset_fraction, if_neg hnot, if_pos h]
    have hnum : ((tp : ℚ) - val_disease_fraction vp vn * (tp : ℚ)) =
        (tp : ℚ) * (1 - val_disease_fraction vp vn) := by ring
    rw [hnum]

/-- Witness for `determine_subset_fraction_formula` at the spec's own test
vector `(80, 20, 10, 90)` and its mirror `(20, 80, 90, 10)`. -/
theorem determine_subset_fraction_formula_witness :
    determine_subset_fraction 80 20 10 90 =
      some ((val_disease_fraction 10 90 * (20 : ℚ) / (1 - val_disease_fraction 10 90)) /
        (80 : ℚ)) ∧
    determine_subset_fraction 20 80 90 10 =
      some (((20 : ℚ) * (1 - val_disease_fraction 90 10) / val_disease_fraction 90 10) /
        (80 : ℚ)) :=
  ⟨(determine_subset_fraction_formula 80 20 10 90 (by decide) (by decide)).1 (by
      rw [train_disease_fraction, val_disease_fraction]; norm_num),
   (determine_subset_fraction_formula 20 80 90 10 (by decide) (by decide)).2 (by
      rw [train_disease_fraction, val_disease_fraction]; norm_num)⟩

/-- C2 counterexample: on the all-negative validation pool
`(train_pos, train_neg, val_pos, val_neg) = (1, 1, 0, 1)` the function does
not reject the input — it returns the value `0`.  No `DegenerateRatioError`
guard exists in the code. -/
theorem determine_subset_fraction_degenerate_counterexample :
    determine_subset_fraction 1 1 0 1 = some 0 := by
  rw [determine_subset_fraction]
  norm_num [train_disease_fraction, val_disease_fraction]

/-- C2 (amended): on a degenerate validation pool (all-negative or
all-positive), whenever the training ratio differs from the validation
ratio the function returns the value `0` (remove the whole designated
class); it raises no error and performs no division by zero. -/
theorem determine_subset_fraction_degenerate (tp tn vp vn : ℕ)
    (hT : 0 < tp + tn) (hV : 0 < vp + vn)
    (hdeg : (vp = 0 ∧ 0 < vn) ∨ (vn = 0 ∧ 0 < vp))
    (hne : train_disease_fraction tp tn ≠ val_disease_fraction vp vn) :
    determine_subset_fraction tp tn vp vn = some 0 := by
  rcases hdeg with ⟨hvp, _⟩ | ⟨hvn, hvp⟩
  · have hv : val_disease_fraction vp vn = 0 := by
      rw [val_disease_fraction, hvp]
      simp
    have htdf_pos : val_disease_fraction vp vn < train_disease_fraction tp tn := by
      have hne' : train_disease_fraction tp tn ≠ 0 := by
        rw [hv] at hne
        exact hne
      rw [hv]
      exact lt_of_le_of_ne (train_disease_fraction_nonneg tp tn) (Ne.symm hne')
    rw [determine_subset_fraction, if_pos htdf_pos, hv]
    simp
  · have hvpQ : (vp : ℚ) ≠ 0 := by
      exact_mod_cast Nat.pos_iff_ne_zero.mp hvp
    have hv : val_disease_fraction vp vn = 1 := by
      rw [val_disease_fraction, hvn]
      simp [div_self hvpQ]
    have hnotgt : ¬ train_disease_fraction tp tn > val_disease_fraction vp vn := by
      rw [hv]
      exact not_lt.mpr (train_disease_fraction_le_one tp tn)
    have hlt : train_disease_fraction tp tn < val_disease_fraction vp vn := by
      rw [hv]
      exact lt_of_le_of_ne (train_disease_fraction_le_one tp tn) (hv ▸ hne)
    rw [determine_subset_fraction, if_neg hnotgt, if_pos hlt, hv]
    simp

/-- Witness for `determine_subset_fraction_degenerate` at
`(2, 1, 0, 3)`: all-negative validation pool, distinct ratios. -/
theorem determine_subset_fraction_degenerate_witness :
    determine_subset_fraction 2 1 0 3 = some 0 :=
  determine_subset_fraction_degenerate 2 1 0 3 (by decide) (by decide)
    (Or.inl ⟨rfl, by decide⟩)
    (by rw [train_disease_fraction, val_disease_fraction]; norm_num)

/-- C3: at equal training and validation ratios (input `(1, 1, 1, 1)`,
both ratios `1/2`) the code reaches `return subset_fraction` with the
variable never assigned and raises `UnboundLocalError` (embedded: `none`)
instead of returning the fraction `1.0` the spec requires. -/
theorem determine_subset_fraction_equal_ratio_eval :
    determine_subset_fraction 1 1 1 1 = none := by
  rw [determine_subset_fraction]
  norm_num [train_disease_fraction, val_disease_fraction]

/-- C4: with both pools non-empty and distinct ratios, the returned
fraction always lies in `[0, 1)`: non-negative and strictly below `1` in
exact rational arithmetic. -/
theorem determine_subset_fraction_range (tp tn vp vn : ℕ)
    (hT : 0 < tp + tn) (hV : 0 < vp + vn)
    (hne : train_disease_fraction tp tn ≠ val_disease_fraction vp vn) :
    ∃ q, determine_subset_fraction tp tn vp vn = some q ∧ 0 ≤ q ∧ q < 1 := by
  have htnp : (0 : ℚ) < (tn : ℚ) + (tp : ℚ) := by
    have : (0 : ℚ) < ((tp + tn : ℕ) : ℚ) := by exact_mod_cast hT
    push_cast at this
    linarith
  rcases lt_or_gt_of_ne hne with h | h
  · -- r_train < r_val : negative class downsampled
    have hvdf_pos : 0 < val_disease_fraction vp vn :=
      lt_of_le_of_lt (train_disease_fraction_nonneg tp tn) h
    have hvle1 : val_disease_fraction vp vn ≤ 1 := val_disease_fraction_le_one vp vn
    have htn : 0 < tn :=
      train_negative_pos_of_fraction_lt_one hT (lt_of_lt_of_le h hvle1)
    have htnQ : (0 : ℚ) < (tn : ℚ) := by exact_mod_cast htn
    have hnotgt : ¬ train_disease_fraction tp tn > val_disease_fraction vp vn :=
      not_lt.mpr h.le
    refine ⟨_, by rw [determine_subset_fraction, if_neg hnotgt, if_pos h], ?_, ?_⟩
    · apply div_nonneg
      apply div_nonneg
      · nlinarith [(Nat.cast_nonneg tp : (0 : ℚ) ≤ (tp : ℚ))]
      · exact hvdf_pos.le
      · exact htnQ.le
    · have hkey : (tp : ℚ) < val_disease_fraction vp vn * ((tn : ℚ) + (tp : ℚ)) := by
        have h' := h
        rw [train_disease_fraction] at h'
        exact (div_lt_iff htnp).mp h'
      rw [div_div]
      rw [div_lt_one (by positivity)]
      nlinarith
  · -- r_train > r_val : positive class downsampled
    have hvdf_nonneg : 0 ≤ val_disease_fraction vp vn := val_disease_fraction_nonneg vp vn
    have htdf_pos : 0 < train_disease_fraction tp tn := lt_of_le_of_lt hvdf_nonneg h
    have htp : 0 < tp := train_positive_pos_of_fraction_pos htdf_pos
    have htpQ : (0 : ℚ) < (tp : ℚ) := by exact_mod_cast htp
    have h1v : 0 < 1 - val_disease_fraction vp vn := by
      have := lt_of_lt_of_le h (train_disease_fraction_le_one tp tn)
      linarith
    refine ⟨_, by rw [determine_subset_fraction, if_pos h], ?_, ?_⟩
    · apply div_nonneg
      apply div_nonneg
      · exact mul_nonneg hvdf_nonneg (Nat.cast_nonneg tn)
      · exact h1v.le
      · exact htpQ.le
    · have hkey : val_disease_fraction vp vn * ((tn : ℚ) + (tp : ℚ)) < (tp : ℚ) := by
        have h' := h
        rw [train_disease_fraction] at h'
        exact (lt_div_iff htnp).mp h'
      rw [div_div]
      rw [div_lt_one (by positivity)]
      nlinarith

/-- Witness for `determine_subset_fraction_range` at the spec's test
vector `(80, 20, 10, 90)`. -/
theorem determine_subset_fraction_range_witness :
    ∃ q, determine_subset_fraction 80 20 10 90 = some q ∧ 0 ≤ q ∧ q < 1 :=
  determine_subset_fraction_range 80 20 10 90 (by decide) (by decide)
    (by rw [train_disease_fraction, val_disease_fraction]; norm_num)

/-- C5: with both pools non-empty, every divisor inside the taken branch
of `determine_subset_fraction` is nonzero: the two pool-size divisors
always, and per branch `1 - r_val` with `train_positive` (when
`r_train > r_val`), or `r_val` with `train_negative` (when
`r_train < r_val`). -/
theorem determine_subset_fraction_divisors (tp tn vp vn : ℕ)
    (hT : 0 < tp + tn) (hV : 0 < vp + vn) :
    ((tn : ℚ) + (tp : ℚ)) ≠ 0 ∧ ((vp : ℚ) + (vn : ℚ)) ≠ 0 ∧
    (train_disease_fraction tp tn > val_disease_fraction vp vn →
      1 - val_disease_fraction vp vn ≠ 0 ∧ (tp : ℚ) ≠ 0) ∧
    (train_disease_fraction tp tn < val_disease_fraction vp vn →
      val_disease_fraction vp vn ≠ 0 ∧ (tn : ℚ) ≠ 0) := by
  have htnp : (0 : ℚ) < (tn : ℚ) + (tp : ℚ) := by
    have : (0 : ℚ) < ((tp + tn : ℕ) : ℚ) := by exact_mod_cast hT
    push_cast at this
    linarith
  have hvnp : (0 : ℚ) < (vp : ℚ) + (vn : ℚ) := by
    have : (0 : ℚ) < ((vp + vn : ℕ) : ℚ) := by exact_mod_cast hV
    push_cast at this
    linarith
  refine ⟨ne_of_gt htnp, ne_of_gt hvnp, ?_, ?_⟩
  · intro h
    have h1v : 0 < 1 - val_disease_fraction vp vn := by
      have := lt_of_lt_of_le h (train_disease_fraction_le_one tp tn)
      linarith
    have htp : 0 < tp :=
      train_positive_pos_of_fraction_pos
        (lt_of_le_of_lt (val_disease_fraction_nonneg vp vn) h)
    exact ⟨ne_of_gt h1v, by exact_mod_cast Nat.pos_iff_ne_zero.mp htp⟩
  · intro h
    have hvdf_pos : 0 < val_disease_fraction vp vn :=
      lt_of_le_of_lt (train_disease_fraction_nonneg tp tn) h
    have htn : 0 < tn :=
      train_negative_pos_of_fraction_lt_one hT
        (lt_of_lt_of_le h (val_disease_fraction_le_one vp vn))
    exact ⟨ne_of_gt hvdf_pos, by exact_mod_cast Nat.pos_iff_ne_zero.mp htn⟩

/-- Witness for `determine_subset_fraction_divisors` at `(3, 1, 1, 3)`. -/
theorem determine_subset_fraction_divisors_witness :
    ((1 : ℚ) + (3 : ℚ)) ≠ 0 ∧ ((1 : ℚ) + (3 : ℚ)) ≠ 0 ∧
    (train_disease_fraction 3 1 > val_disease_fraction 1 3 →
      1 - val_disease_fraction 1 3 ≠ 0 ∧ (3 : ℚ) ≠ 0) ∧
    (train_disease_fraction 3 1 < val_disease_fraction 1 3 →
      val_disease_fraction 1 3 ≠ 0 ∧ (1 : ℚ) ≠ 0) := by
  have h := determine_subset_fraction_divisors 3 1 1 3 (by decide) (by decide)
  push_cast at h
  exact h

/-! ## Label map loader (`parse_label_file`) -/

/-- Python `dict` lookup, embedded as first-match lookup in an
association list (dict keys are unique, so first match is the match). -/
def dictGet {β : Type} [DecidableEq α] (k : α) : List (α × β) → Option β
  | [] => none
  | (k2, v) :: rest => if k2 = k then some v else dictGet k rest

/-- The inner loop of `parse_label_file`: write `sample → label` for each
sample of one label, with `assert sample not in sample_to_label` embedded
as a `none` result on a repeated sample. -/
def insertLabelSamples (label : String) :
    List String → List (String × String) → Option (List (String × String))
  | [], acc => some acc
  | s :: rest, acc =>
    if (dictGet s acc).isSome then none
    else insertLabelSamples label rest (acc ++ [(s, label)])

/-- The outer loop of `parse_label_file` over the labels. -/
def parseLabelAux :
    List (String × List String) → List (String × String) → Option (List (String × String))
  | [], acc => some acc
  | (label, samples) :: rest, acc =>
    match insertLabelSamples label samples acc with
    | none => none
    | some acc2 => parseLabelAux rest acc2

/-- Embedding of `parse_label_file`: invert a `label → samples` mapping
into a `sample → label` mapping, failing (`none`, the `AssertionError`)
when a sample id is written twice. -/
def parse_label_file (label_to_sample : List (String × List String)) :
    Option (List (String × String)) :=
  parseLabelAux label_to_sample []

/-- The expected inverted mapping, in write order. -/
def labelPairs : List (String × List String) → List (String × String)
  | [] => []
  | (label, samples) :: rest => (samples.map fun s => (s, label)) ++ labelPairs rest

/-- All sample ids of a label map, with multiplicity, in iteration order. -/
def allSamples : List (String × List String) → List String
  | [] => []
  | (_, samples) :: rest => samples ++ allSamples rest

/-- The literal reading of the claim's hypothesis: no sample id occurs
under two (distinct entries of) labels. -/
def noSampleUnderTwoLabels (m : List (String × List String)) : Prop :=
  m.Pairwise fun a b => ∀ s ∈ a.2, s ∉ b.2

theorem dictGet_append {β : Type} [DecidableEq α] (k : α) (l1 l2 : List (α × β)) :
    dictGet k (l1 ++ l2) =
      if (dictGet k l1).isSome then dictGet k l1 else dictGet k l2 := by
  induction l1 with
  | nil => simp [dictGet]
  | cons h t ih =>
    obtain ⟨k2, v⟩ := h
    by_cases hk : k2 = k <;> simp [dictGet, hk, ih]

theorem dictGet_eq_none_iff {β : Type} [DecidableEq α] (k : α) (l : List (α × β)) :
    dictGet k l = none ↔ k ∉ l.map Prod.fst := by
  induction l with
  | nil => simp [dictGet]
  | cons h t ih =>
    obtain ⟨k2, v⟩ := h
    by_cases hk : k2 = k
    · subst hk
      simp [dictGet]
    · have hk2 : ¬ k = k2 := fun h2 => hk h2.symm
      simp [dictGet, hk, hk2, ih]

theorem insertLabelSamples_some {label : String} {ss : List String}
    {acc : List (String × String)} (hnd : ss.Nodup)
    (hfresh : ∀ s ∈ ss, dictGet s acc = none) :
    insertLabelSamples label ss acc = some (acc ++ ss.map fun s => (s, label)) := by
  induction ss generalizing acc with
  | nil => simp [insertLabelSamples]
  | cons s rest ih =>
    have hs : dictGet s acc = none := hfresh s (List.mem_cons_self s rest)
    rw [insertLabelSamples, hs]
    simp only [Option.isSome_none, Bool.false_eq_true, if_false]
    have hrec : insertLabelSamples label rest (acc ++ [(s, label)]) =
        some ((acc ++ [(s, label)]) ++ rest.map fun t => (t, label)) := by
      apply ih (List.Nodup.of_cons hnd)
      intro t ht
      rw [dictGet_append, hfresh t (List.mem_cons_of_mem s ht)]
      have hts : ¬ s = t := by
        intro h
        exact (List.nodup_cons.mp hnd).1 (h ▸ ht)
      simp [dictGet, hts]
    rw [hrec]
    simp

theorem insertLabelSamples_none {label : String} {ss : List String}
    {acc : List (String × String)}
    (h : ¬ (ss.Nodup ∧ ∀ s ∈ ss, dictGet s acc = none)) :
    insertLabelSamples label ss acc = none := by
  induction ss generalizing acc with
  | nil => exact absurd ⟨List.nodup_nil, by simp⟩ h
  | cons s rest ih =>
    rw [insertLabelSamples]
    by_cases hs : (dictGet s acc).isSome
    · rw [if_pos hs]
    · rw [if_neg hs]
      have hsnone : dictGet s acc = none := Option.not_isSome_iff_eq_none.mp hs
      apply ih
      intro ⟨hnd2, hfresh2⟩
      apply h
      constructor
      · rw [List.nodup_cons]
        refine ⟨?_, hnd2⟩
        intro hmem
        have := hfresh2 s hmem
        rw [dictGet_append, hsnone] at this
        simp [dictGet] at this
      · intro t ht
        rcases List.mem_cons.mp ht with rfl | ht2
        · exact hsnone
        · have := hfresh2 t ht2
          rw [dictGet_append] at this
          by_cases hcase : (dictGet t acc).isSome
          · rw [if_pos hcase] at this
            rw [this] at hcase
            simp at hcase
          · exact Option.not_isSome_iff_eq_none.mp hcase

theorem parseLabelAux_some {m : List (String × List String)}
    {acc : List (String × String)}
    (h : ((acc.map Prod.fst) ++ allSamples m).Nodup) :
    parseLabelAux m acc = some (acc ++ labelPairs m) := by
  induction m generalizing acc with
  | nil => simp [parseLabelAux, labelPairs]
  | cons hd rest ih =>
    obtain ⟨label, ss⟩ := hd
    rw [allSamples] at h
    rw [parseLabelAux]
    have hparts := List.nodup_append.mp (by simpa using h)
    have hss : ss.Nodup := (List.nodup_append.mp hparts.2.1).1
    have hfresh : ∀ s ∈ ss, dictGet s acc = none := by
      intro s hs
      rw [dictGet_eq_none_iff]
      intro hmem
      exact hparts.2.2 hmem (List.mem_append_left _ hs)
    rw [insertLabelSamples_some hss hfresh]
    have hkeys : ((acc ++ ss.map fun s => (s, label)).map Prod.fst) =
        acc.map Prod.fst ++ ss := by
      simp [List.map_map, Function.comp_def]
    have hnext : (((acc ++ ss.map fun s => (s, label)).map Prod.fst) ++
        allSamples rest).Nodup := by
      rw [hkeys, List.append_assoc]
      simpa using h
    show parseLabelAux rest (acc ++ ss.map fun s => (s, label)) =
      some (acc ++ labelPairs ((label, ss) :: rest))
    rw [ih hnext, labelPairs]
    simp

theorem parseLabelAux_none {m : List (String × List String)}
    {acc : List (String × String)} (hacc : (acc.map Prod.fst).Nodup)
    (h : ¬ ((acc.map Prod.fst) ++ allSamples m).Nodup) :
    parseLabelAux m acc = none := by
  induction m generalizing acc with
  | nil =>
    rw [allSamples, List.append_nil] at h
    exact absurd hacc h
  | cons hd rest ih =>
    obtain ⟨label, ss⟩ := hd
    rw [allSamples] at h
    rw [parseLabelAux]
    by_cases hc : ss.Nodup ∧ ∀ s ∈ ss, dictGet s acc = none
    · obtain ⟨hss, hfresh⟩ := hc
      rw [insertLabelSamples_some hss hfresh]
      have hkeys : ((acc ++ ss.map fun s => (s, label)).map Prod.fst) =
          acc.map Prod.fst ++ ss := by
        simp [List.map_map, Function.comp_def]
      have hacc2 : ((acc ++ ss.map fun s => (s, label)).map Prod.fst).Nodup := by
        rw [hkeys, List.nodup_append]
        refine ⟨hacc, hss, ?_⟩
        intro a ha hamem
        have := hfresh a hamem
        rw [dictGet_eq_none_iff] at this
        exact this ha
      have h2 : ¬ (((acc ++ ss.map fun s => (s, label)).map Prod.fst) ++
          allSamples rest).Nodup := by
        rw [hkeys, List.append_assoc]
        intro hcon
        apply h
        simpa using hcon
      show parseLabelAux rest (acc ++ ss.map fun s => (s, label)) = none
      exact ih hacc2 h2
    · rw [insertLabelSamples_none hc]

theorem labelPairs_keys (m : List (String × List String)) :
    (labelPairs m).map Prod.fst = allSamples m := by
  induction m with
  | nil => simp [labelPairs, allSamples]
  | cons hd rest ih =>
    obtain ⟨label, ss⟩ := hd
    simp [labelPairs, allSamples, ih, List.map_map, Function.comp_def]

theorem mem_allSamples_of {m : List (String × List String)} {label : String}
    {ss : List String} {s : String} (hm : (label, ss) ∈ m) (hs : s ∈ ss) :
    s ∈ allSamples m := by
  induction m with
  | nil => simp at hm
  | cons hd rest ih =>
    rcases List.mem_cons.mp hm with rfl | hm2
    · exact List.mem_append_left _ hs
    · exact List.mem_append_right _ (ih hm2)

theorem dictGet_map_self {s : String} {ss : List String} {label : String}
    (hs : s ∈ ss) : dictGet s (ss.map fun t => (t, label)) = some label := by
  induction ss with
  | nil => simp at hs
  | cons t rest ih =>
    rcases List.mem_cons.mp hs with rfl | hs2
    · simp [dictGet]
    · by_cases hts : t = s
      · simp [dictGet, hts]
      · simp only [List.map_cons, dictGet, if_neg hts]
        exact ih hs2

theorem dictGet_map_none {s : String} {ss : List String} {label : String}
    (hs : s ∉ ss) : dictGet s (ss.map fun t => (t, label)) = none := by
  induction ss with
  | nil => simp [dictGet]
  | cons t rest ih =>
    have hts : ¬ t = s := fun h => hs (h ▸ List.mem_cons_self t rest)
    simp only [List.map_cons, dictGet, if_neg hts]
    exact ih fun h => hs (List.mem_cons_of_mem t h)

theorem dictGet_labelPairs {m : List (String × List String)} {label : String}
    {ss : List String} {s : String} (hnd : (allSamples m).Nodup)
    (hm : (label, ss) ∈ m) (hs : s ∈ ss) :
    dictGet s (labelPairs m) = some label := by
  induction m with
  | nil => simp at hm
  | cons hd rest ih =>
    obtain ⟨label2, ss2⟩ := hd
    rw [allSamples] at hnd
    have hparts := List.nodup_append.mp hnd
    rw [labelPairs, dictGet_append]
    rcases List.mem_cons.mp hm with heq | hm2
    · cases heq
      rw [dictGet_map_self hs]
      simp
    · have hsrest : s ∈ allSamples rest := mem_allSamples_of hm2 hs
      have hnotss2 : s ∉ ss2 := fun h => hparts.2.2 h hsrest
      rw [dictGet_map_none hnotss2]
      simp only [Option.isSome_none, Bool.false_eq_true, if_false]
      exact ih hparts.2.1 hm2

/-- C6 counterexample: in `{"a": ["s", "s"]}` no sample id occurs under
two labels, yet loading does not produce a mapping — the duplicate of
`"s"` inside the single label trips the assertion (`none`). -/
theorem parse_label_file_counterexample :
    noSampleUnderTwoLabels [("a", ["s", "s"])] ∧
    parse_label_file [("a", ["s", "s"])] = none := by
  constructor
  · simp [noSampleUnderTwoLabels]
  · rfl

/-- C6 (amended): if no sample id occurs twice anywhere in the label map
(neither under two labels nor twice under one), loading produces the
inverted mapping, in which every sample of every label appears exactly
once as a key and looks up to its source label; if any sample id occurs a
second time anywhere, loading fails with the duplicate-assignment
assertion. -/
theorem parse_label_file_spec (m : List (String × List String)) :
    ((allSamples m).Nodup →
      parse_label_file m = some (labelPairs m) ∧
      (labelPairs m).map Prod.fst = allSamples m ∧
      ∀ label ss, (label, ss) ∈ m → ∀ s ∈ ss,
        dictGet s (labelPairs m) = some label) ∧
    (¬ (allSamples m).Nodup → parse_label_file m = none) := by
  constructor
  · intro h
    refine ⟨?_, labelPairs_keys m, fun label ss hm s hs => dictGet_labelPairs h hm hs⟩
    have h0 : ((([] : List (String × String)).map Prod.fst) ++ allSamples m).Nodup := by
      simpa using h
    have := parseLabelAux_some h0
    simpa [parse_label_file] using this
  · intro h
    exact parseLabelAux_none (by simp) (by simpa using h)

/-- Witness for `parse_label_file_spec`: a duplicate-free two-label map
loads to its inversion; a map with a repeated sample id fails. -/
theorem parse_label_file_spec_witness :
    parse_label_file [("sepsis", ["GSM1", "GSM2"]), ("healthy", ["GSM3"])] =
      some (labelPairs [("sepsis", ["GSM1", "GSM2"]), ("healthy", ["GSM3"])]) ∧
    parse_label_file [("a", ["s", "t", "s"])] = none :=
  ⟨((parse_label_file_spec [("sepsis", ["GSM1", "GSM2"]), ("healthy", ["GSM3"])]).1
      (by decide)).1,
   (parse_label_file_spec [("a", ["s", "t", "s"])]).2 (by decide)⟩

/-! ## Metadata resolver: tissue extraction (`get_tissue`) -/

/-- Python substring test `needle in hay` over character lists. -/
def strContains (needle : List Char) : List Char → Bool
  | [] => needle.isEmpty
  | c :: rest => needle.isPrefixOf (c :: rest) || strContains needle rest

/-- Python `str.split(sep)` for a one-character separator. -/
def splitOnChar (sep : Char) : List Char → List (List Char)
  | [] => [[]]
  | c :: rest =>
    match splitOnChar sep rest with
    | [] => [[c]]
    | p :: ps => if c = sep then [] :: p :: ps else (c :: p) :: ps

/-- Python `str.strip()`: drop whitespace from both ends. -/
def trimChars (l : List Char) : List Char :=
  ((l.dropWhile Char.isWhitespace).reverse.dropWhile Char.isWhitespace).reverse

/-- Python `str.lower()`. -/
def lowerChars (l : List Char) : List Char :=
  l.map Char.toLower

/-- The marker substring `'tissue:'`. -/
def tissueMarker : List Char := "tissue:".data

/-- One annotation entry: its `characteristics_ch1` list, `none` when the
field is absent. -/
structure AnnotationRecord where
  characteristics_ch1 : Option (List String)
deriving DecidableEq

/-- One sample's metadata record: its `refinebio_annotations` list,
`none` when the field is absent. -/
structure SampleRecord where
  refinebio_annotations : Option (List AnnotationRecord)
deriving DecidableEq

/-- `characteristic.split(':')[1].strip().lower()`, with the impossible
`IndexError` of a too-short split embedded as `none` (in the code it is
caught and turned into a `None` return). -/
def extractTissueField (c : List Char) : Option String :=
  match (splitOnChar ':' c).get? 1 with
  | some f => some (String.mk (lowerChars (trimChars f)))
  | none => none

/-- The `for characteristic in ch1` loop of `get_tissue`. -/
def scanCharacteristics : List String → Option String
  | [] => none
  | c :: rest =>
    if strContains tissueMarker c.data then extractTissueField c.data
    else scanCharacteristics rest

/-- Embedding of `get_tissue`: each `none` case of the nested lookups
models a `KeyError`/`IndexError` caught by the function (absent sample,
absent `refinebio_annotations`, empty annotation list, absent
`characteristics_ch1`); falling out of the loop returns `None`. -/
def get_tissue (sample_metadata : List (String × SampleRecord)) (sample : String) :
    Option String :=
  match dictGet sample sample_metadata with
  | none => none
  | some r =>
    match r.refinebio_annotations with
    | none => none
    | some anns =>
      match anns.get? 0 with
      | none => none
      | some ann =>
        match ann.characteristics_ch1 with
        | none => none
        | some ch1 => scanCharacteristics ch1

theorem mem_of_strContains {needle hay : List Char}
    (h : strContains needle hay = true) : ∀ c ∈ needle, c ∈ hay := by
  induction hay with
  | nil =>
    rw [strContains, List.isEmpty_iff] at h
    subst h
    simp
  | cons a t ih =>
    rw [strContains, Bool.or_eq_true] at h
    intro c hc
    rcases h with h | h
    · exact List.IsPrefix.subset (Iff.mp List.isPrefixOf_iff_prefix h) hc
    · exact List.mem_cons_of_mem a (ih h c hc)

theorem splitOnChar_ne_nil (sep : Char) (l : List Char) : splitOnChar sep l ≠ [] := by
  cases l with
  | nil => simp [splitOnChar]
  | cons c rest =>
    rw [splitOnChar]
    cases splitOnChar sep rest with
    | nil => simp
    | cons p ps =>
      by_cases hc : c = sep <;> simp [hc]

theorem two_le_splitOnChar_length {sep : Char} {l : List Char} (h : sep ∈ l) :
    2 ≤ (splitOnChar sep l).length := by
  induction l with
  | nil => simp at h
  | cons c rest ih =>
    rw [splitOnChar]
    cases hs : splitOnChar sep rest with
    | nil => exact absurd hs (splitOnChar_ne_nil sep rest)
    | cons p ps =>
      dsimp only
      by_cases hc : c = sep
      · simp [hc]
      · rw [if_neg hc]
        have hrest : sep ∈ rest := by
          rcases List.mem_cons.mp h with heq | hm
          · exact absurd heq.symm hc
          · exact hm
        have := ih hrest
        rw [hs] at this
        simpa using this

theorem exists_second_field {c : List Char}
    (h : strContains tissueMarker c = true) :
    ∃ f, (splitOnChar ':' c).get? 1 = some f := by
  have hcolon : (':' : Char) ∈ c := mem_of_strContains h ':' (by decide)
  have hlen := two_le_splitOnChar_length hcolon
  cases hs : splitOnChar ':' c with
  | nil => exact absurd hs (splitOnChar_ne_nil ':' c)
  | cons p ps =>
    cases ps with
    | nil =>
      rw [hs] at hlen
      simp at hlen
    | cons q qs => exact ⟨q, rfl⟩

theorem scanCharacteristics_eq_none {ch1 : List String}
    (h : ∀ c ∈ ch1, strContains tissueMarker c.data = false) :
    scanCharacteristics ch1 = none := by
  induction ch1 with
  | nil => rfl
  | cons c rest ih =>
    rw [scanCharacteristics, h c (List.mem_cons_self c rest)]
    exact ih fun c2 hc2 => h c2 (List.mem_cons_of_mem c hc2)

theorem scanCharacteristics_first {pre rest2 : List String} {c : String}
    (hpre : ∀ c2 ∈ pre, strContains tissueMarker c2.data = false)
    (hc : strContains tissueMarker c.data = true) :
    scanCharacteristics (pre ++ c :: rest2) = extractTissueField c.data := by
  induction pre with
  | nil =>
    rw [List.nil_append, scanCharacteristics, hc]
    rfl
  | cons p t ih =>
    rw [List.cons_append, scanCharacteristics, hpre p (List.mem_cons_self p t)]
    exact ih fun c2 hc2 => hpre c2 (List.mem_cons_of_mem p hc2)

/-- C7: with the sample present in the metadata, `get_tissue` resolves to
`none` when the `refinebio_annotations` field is absent, when the
annotation list is empty, or when no characteristic contains the marker
`'tissue:'`; on the first characteristic containing the marker it returns
the second `':'`-separated field, whitespace-trimmed and lower-cased. -/
theorem get_tissue_spec (sample_metadata : List (String × SampleRecord))
    (sample : String) (r : SampleRecord)
    (hlook : dictGet sample sample_metadata = some r) :
    (r.refinebio_annotations = none → get_tissue sample_metadata sample = none) ∧
    (r.refinebio_annotations = some [] → get_tissue sample_metadata sample = none) ∧
    (∀ ann anns ch1, r.refinebio_annotations = some (ann :: anns) →
      ann.characteristics_ch1 = some ch1 →
      ((∀ c ∈ ch1, strContains tissueMarker c.data = false) →
        get_tissue sample_metadata sample = none) ∧
      (∀ pre c rest2, ch1 = pre ++ c :: rest2 →
        (∀ c2 ∈ pre, strContains tissueMarker c2.data = false) →
        strContains tissueMarker c.data = true →
        ∃ f, (splitOnChar ':' c.data).get? 1 = some f ∧
          get_tissue sample_metadata sample =
            some (String.mk (lowerChars (trimChars f))))) := by
  refine ⟨?_, ?_, ?_⟩
  · intro h
    simp only [get_tissue, hlook, h]
  · intro h
    simp only [get_tissue, hlook, h, List.get?]
  · intro ann anns ch1 hanns hch1
    constructor
    · intro hnone
      simp only [get_tissue, hlook, hanns, List.get?, hch1]
      exact scanCharacteristics_eq_none hnone
    · intro pre c rest2 hsplit hpre hc
      obtain ⟨f, hf⟩ := exists_second_field hc
      refine ⟨f, hf, ?_⟩
      simp only [get_tissue, hlook, hanns, List.get?, hch1]
      rw [hsplit, scanCharacteristics_first hpre hc, extractTissueField, hf]

/-- Witness for `get_tissue_spec` at the spec's example: characteristics
`["cell line: K562", "tissue: Whole Blood "]` yield `"whole blood"`. -/
theorem get_tissue_spec_witness :
    get_tissue [("GSM1", ⟨some [⟨some ["cell line: K562", "tissue: Whole Blood "]⟩]⟩)]
      "GSM1" = some "whole blood" := by
  obtain ⟨f, hf, hres⟩ :=
    (((get_tissue_spec
        [("GSM1", ⟨some [⟨some ["cell line: K562", "tissue: Whole Blood "]⟩]⟩)]
        "GSM1" ⟨some [⟨some ["cell line: K562", "tissue: Whole Blood "]⟩]⟩ rfl).2.2
      ⟨some ["cell line: K562", "tissue: Whole Blood "]⟩ []
      ["cell line: K562", "tissue: Whole Blood "] rfl rfl).2
      ["cell line: K562"] "tissue: Whole Blood " [] rfl (by decide) (by decide))
  have hfval : (splitOnChar ':' ("tissue: Whole Blood ").data).get? 1 =
      some (" Whole Blood ").data := by decide
  rw [hfval] at hf
  have hfeq : f = (" Whole Blood ").data := (Option.some.inj hf).symm
  subst hfeq
  rw [hres]
  decide

/-! ## Cohort selector (`get_blood_sample_ids`) -/

/-- The fixed controlled vocabulary of blood-tissue synonyms. -/
def BLOOD_KEYS : List String :=
  ["blood",
   "blood (buffy coat)",
   "blood cells",
   "blood monocytes",
   "blood sample",
   "cells from whole blood",
   "fresh venous blood anticoagulated with 50 g/ml thrombin-inhibitor lepirudin",
   "healthy human blood",
   "host peripheral blood",
   "leukemic peripheral blood",
   "monocytes isolated from pbmc",
   "normal peripheral blood cells",
   "pbmc",
   "pbmcs",
   "peripheral blood",
   "peripheral blood (pb)",
   "peripheral blood mononuclear cell",
   "peripheral blood mononuclear cell (pbmc)",
   "peripheral blood mononuclear cells",
   "peripheral blood mononuclear cells (pbmc)",
   "peripheral blood mononuclear cells (pbmcs)",
   "peripheral blood mononuclear cells (pbmcs) from healthy donors",
   "peripheral maternal blood",
   "peripheral whole blood",
   "periphral blood",
   "pheripheral blood",
   "whole blood",
   "whole blood (wb)",
   "whole blood, maternal peripheral",
   "whole venous blood"]

/-- The compendium metadata structure: its `samples` dictionary. -/
structure Metadata where
  samples : List (String × SampleRecord)

/-- `tissue in BLOOD_KEYS` for one sample (`None` is never a member). -/
def isBloodSample (sample_metadata : List (String × SampleRecord)) (s : String) : Bool :=
  match get_tissue sample_metadata s with
  | some t => BLOOD_KEYS.contains t
  | none => false

/-- Embedding of `get_blood_sample_ids`: the union of the labeled samples
with the unlabeled samples of the metadata whose tissue is in
`BLOOD_KEYS`. -/
def get_blood_sample_ids (metadata : Metadata)
    (sample_to_label : List (String × String)) : Finset String :=
  let sample_metadata := metadata.samples
  let labeled_samples : Finset String := (sample_to_label.map Prod.fst).toFinset
  let unlabeled_samples : Finset String :=
    ((sample_metadata.map Prod.fst).filter fun s =>
      isBloodSample sample_metadata s &&
        !(decide (s ∈ sample_to_label.map Prod.fst))).toFinset
  labeled_samples ∪ unlabeled_samples

/-- C8: membership in the returned cohort is exactly `L ∪ U`: either the
sample is a key of the sample-to-label mapping, or it is a sample of the
metadata whose extracted tissue is in `BLOOD_KEYS` and which is not
labeled. -/
theorem get_blood_sample_ids_spec (metadata : Metadata)
    (sample_to_label : List (String × String)) (x : String) :
    x ∈ get_blood_sample_ids metadata sample_to_label ↔
      (x ∈ sample_to_label.map Prod.fst ∨
        (x ∈ metadata.samples.map Prod.fst ∧
          (∃ t, get_tissue metadata.samples x = some t ∧ t ∈ BLOOD_KEYS) ∧
          x ∉ sample_to_label.map Prod.fst)) := by
  rw [get_blood_sample_ids]
  simp only [Finset.mem_union, List.mem_toFinset, List.mem_filter, Bool.and_eq_true,
    Bool.not_eq_true', decide_eq_false_iff_not]
  constructor
  · rintro (h | ⟨hmem, hblood, hnl⟩)
    · exact Or.inl h
    · refine Or.inr ⟨hmem, ?_, hnl⟩
      rw [isBloodSample] at hblood
      cases hgt : get_tissue metadata.samples x with
      | none => rw [hgt] at hblood; simp at hblood
      | some t =>
        rw [hgt] at hblood
        exact ⟨t, rfl, by simpa using hblood⟩
  · rintro (h | ⟨hmem, ⟨t, hgt, ht⟩, hnl⟩)
    · exact Or.inl h
    · refine Or.inr ⟨hmem, ?_, hnl⟩
      rw [isBloodSample, hgt]
      simpa using ht

/-! ## Study filter (`get_samples_in_studies`) -/

/-- The comprehension's predicate, defined only where the lookup hits:
`sample_to_study[sample] in studies`. -/
def studyFilterPred (studies : List String) (sample_to_study : List (String × String))
    (s : String) : Bool :=
  match dictGet s sample_to_study with
  | some st => decide (st ∈ studies)
  | none => false

/-- Embedding of `get_samples_in_studies`: the list comprehension
`[sample for sample in samples if sample_to_study[sample] in studies]`,
with the `KeyError` of a missing study mapping embedded as `none`. -/
def get_samples_in_studies (samples : List String) (studies : List String)
    (sample_to_study : List (String × String)) : Option (List String) :=
  match samples with
  | [] => some []
  | s :: rest =>
    match dictGet s sample_to_study with
    | none => none
    | some st =>
      match get_samples_in_studies rest studies sample_to_study with
      | none => none
      | some subset =>
        some (if st ∈ studies then s :: subset else subset)

/-- C9: when every sample has a study mapping the result is the
order-preserving sublist of exactly the samples whose study is in
`studies`; when some sample has no study mapping the operation fails with
the key-lookup error. -/
theorem get_samples_in_studies_spec (samples studies : List String)
    (sample_to_study : List (String × String)) :
    ((∀ s ∈ samples, (dictGet s sample_to_study).isSome) →
      get_samples_in_studies samples studies sample_to_study =
        some (samples.filter (studyFilterPred studies sample_to_study))) ∧
    ((∃ s ∈ samples, dictGet s sample_to_study = none) →
      get_samples_in_studies samples studies sample_to_study = none) := by
  induction samples with
  | nil =>
    constructor
    · intro _
      rfl
    · rintro ⟨s, hs, _⟩
      simp at hs
  | cons s rest ih =>
    constructor
    · intro h
      have hs := h s (List.mem_cons_self s rest)
      obtain ⟨st, hst⟩ := Option.isSome_iff_exists.mp hs
      rw [get_samples_in_studies, hst,
        ih.1 fun s2 hs2 => h s2 (List.mem_cons_of_mem s hs2)]
      dsimp only
      rw [List.filter_cons]
      by_cases hmem : st ∈ studies
      · rw [if_pos hmem]
        have : studyFilterPred studies sample_to_study s = true := by
          rw [studyFilterPred, hst]
          simpa using hmem
        rw [if_pos this]
      · rw [if_neg hmem]
        have : ¬ studyFilterPred studies sample_to_study s = true := by
          rw [studyFilterPred, hst]
          simpa using hmem
        rw [if_neg this]
    · rintro ⟨s2, hs2, hnone⟩
      rcases List.mem_cons.mp hs2 with rfl | hrest
      · rw [get_samples_in_studies, hnone]
      · rw [get_samples_in_studies]
        cases hst : dictGet s sample_to_study with
        | none => rfl
        | some st =>
          rw [ih.2 ⟨s2, hrest, hnone⟩]

/-- Witness for `get_samples_in_studies_spec`: a fully mapped sample list
filters to the study members in order; a list with an unmapped sample
fails. -/
theorem get_samples_in_studies_spec_witness :
    get_samples_in_studies ["GSM1", "GSM2", "GSM3"] ["GSE1"]
        [("GSM1", "GSE1"), ("GSM2", "GSE2"), ("GSM3", "GSE1")] =
      some (["GSM1", "GSM2", "GSM3"].filter
        (studyFilterPred ["GSE1"] [("GSM1", "GSE1"), ("GSM2", "GSE2"), ("GSM3", "GSE1")])) ∧
    get_samples_in_studies ["GSM1", "GSM4"] ["GSE1"]
        [("GSM1", "GSE1"), ("GSM2", "GSE2"), ("GSM3", "GSE1")] = none :=
  ⟨(get_samples_in_studies_spec ["GSM1", "GSM2", "GSM3"] ["GSE1"]
      [("GSM1", "GSE1"), ("GSM2", "GSE2"), ("GSM3", "GSE1")]).1 (by decide),
   (get_samples_in_studies_spec ["GSM1", "GSM4"] ["GSE1"]
      [("GSM1", "GSE1"), ("GSM2", "GSE2"), ("GSM3", "GSE1")]).2
     ⟨"GSM4", by decide, by decide⟩⟩

/-! ## Deterministic shuffle (`deterministic_shuffle_set`) -/

/-- Modelled from the spec: Python's process-wide Mersenne-Twister state
behind `random.sample` is not part of the repository; it is abstracted
here as an explicit numeric state threaded through a linear-congruential
step. The exact update rule is irrelevant to the claim, which only needs
sampling to be a deterministic function of the state. -/
def lcgNext (state : Nat) : Nat :=
  (1103515245 * state + 12345) % 2147483648

/-- Modelled from the spec: `random.sample(l, len(l))` draws `len(l)`
elements without replacement — repeatedly pick a position from the
remaining list, remove it, and continue with the advanced random
state. -/
def sampleAll {α : Type} : Nat → List α → List α
  | _, [] => []
  | state, x :: xs =>
    (x :: xs).get ⟨state % (x :: xs).length, Nat.mod_lt _ (Nat.succ_pos xs.length)⟩ ::
      sampleAll (lcgNext state) ((x :: xs).eraseIdx (state % (x :: xs).length))
termination_by _ l => l.length
decreasing_by
  have hi : state % (x :: xs).length < (x :: xs).length :=
    Nat.mod_lt state (Nat.succ_pos xs.length)
  have h := List.length_eraseIdx_add_one hi
  omega

/-- Embedding of `deterministic_shuffle_set`:
`random.sample(sorted(list(set_)), len(set_))` — the set is materialized
as a list (in any iteration order), canonically sorted, and then sampled
exhaustively. -/
def deterministic_shuffle_set {α : Type} [LinearOrder α] (seed : Nat)
    (set_ : List α) : List α :=
  sampleAll seed set_.mergeSort

theorem get_cons_eraseIdx_perm {α : Type} :
    ∀ (l : List α) (i : Nat) (h : i < l.length),
      (l.get ⟨i, h⟩ :: l.eraseIdx i).Perm l
  | x :: xs, 0, _ => by
    simp [List.eraseIdx]
  | x :: xs, i + 1, h => by
    have hi : i < xs.length := Nat.lt_of_succ_lt_succ h
    have hget : (x :: xs).get ⟨i + 1, h⟩ = xs.get ⟨i, hi⟩ := rfl
    have herase : (x :: xs).eraseIdx (i + 1) = x :: xs.eraseIdx i := rfl
    rw [hget, herase]
    exact (List.Perm.swap x (xs.get ⟨i, hi⟩) (xs.eraseIdx i)).trans
      ((get_cons_eraseIdx_perm xs i hi).cons x)

theorem sampleAll_perm {α : Type} :
    ∀ (n : Nat) (state : Nat) (l : List α), l.length ≤ n →
      (sampleAll state l).Perm l := by
  intro n
  induction n with
  | zero =>
    intro state l hl
    rw [Nat.le_zero, List.length_eq_zero] at hl
    subst hl
    rw [sampleAll]
  | succ n ih =>
    intro state l hl
    cases l with
    | nil => rw [sampleAll]
    | cons x xs =>
      rw [sampleAll]
      have hi : state % (x :: xs).length < (x :: xs).length :=
        Nat.mod_lt state (Nat.succ_pos xs.length)
      have hlen : ((x :: xs).eraseIdx (state % (x :: xs).length)).length ≤ n := by
        have h2 := List.length_eraseIdx_add_one hi
        omega
      exact ((ih (lcgNext state) _ hlen).cons _).trans
        (get_cons_eraseIdx_perm (x :: xs) (state % (x :: xs).length) hi)

theorem mergeSort_eq_of_perm {α : Type} [LinearOrder α] {l1 l2 : List α}
    (h : l1.Perm l2) : l1.mergeSort = l2.mergeSort := by
  have hp : (l1.mergeSort).Perm l2.mergeSort :=
    (List.mergeSort_perm l1 _).trans (h.trans (List.mergeSort_perm l2 _).symm)
  exact List.eq_of_perm_of_sorted hp (List.sorted_mergeSort' l1)
    (List.sorted_mergeSort' l2)

/-- C10: on list materializations of the same set (permutations of each
other), `deterministic_shuffle_set` with the same seed produces the same
output list — the input is canonicalized by sorting before sampling —
and the output is always a permutation of the input, in particular of the
same length. -/
theorem deterministic_shuffle_set_spec {α : Type} [LinearOrder α] (seed : Nat)
    (l1 l2 : List α) (h : l1.Perm l2) :
    deterministic_shuffle_set seed l1 = deterministic_shuffle_set seed l2 ∧
    (deterministic_shuffle_set seed l1).Perm l1 ∧
    (deterministic_shuffle_set seed l1).length = l1.length := by
  have hperm : (deterministic_shuffle_set seed l1).Perm l1 := by
    rw [deterministic_shuffle_set]
    exact (sampleAll_perm _ seed _ le_rfl).trans (List.mergeSort_perm l1 _)
  refine ⟨?_, hperm, hperm.length_eq⟩
  rw [deterministic_shuffle_set, deterministic_shuffle_set, mergeSort_eq_of_perm h]

/-- Witness for `deterministic_shuffle_set_spec`: two list
materializations of the same three-element set. -/
theorem deterministic_shuffle_set_spec_witness :
    deterministic_shuffle_set 42 [3, 1, 2] = deterministic_shuffle_set 42 [1, 2, 3] ∧
    (deterministic_shuffle_set 42 [3, 1, 2]).Perm [3, 1, 2] ∧
    (deterministic_shuffle_set 42 [3, 1, 2]).length = ([3, 1, 2] : List ℕ).length :=
  deterministic_shuffle_set_spec 42 [3, 1, 2] [1, 2, 3] (by decide)

end Saged
